import Mathlib

/-!
Verification development for the `nixpkgsupd` tool.

The development shallowly embeds the Rust sources:
* `src/lockfile.rs` — lockfile data model and its serde decoding,
* `src/serde_int_tag_hack.rs` — the `Version<7>` deserializer,
* `src/main.rs` — discovery of flakes from gcroots, the match engine and
  `timestamp_matches`,
* `src/flake_nix.rs` — `reduce_diff_context`,
* `src/update.rs` — the interactive command dispatch `execute_prompt_cmd`.

JSON values are modelled by an explicit inductive type (`Json`); objects are
association lists with unique keys, as produced by `serde_json` (which keeps
the last occurrence of a duplicated key, so a decoded document never contains
duplicates).  JSON numbers that occur in the lockfile schema are integers, so
`Json.num` carries an `Int`.  Machine integers are modelled by `Nat`/`Int`
with explicit range checks where the Rust code performs them.  Fallible Rust
functions returning `eyre::Result` are modelled with explicit result types;
a panic (an `unwrap` on `Err`) is modelled by a dedicated constructor.
-/

namespace Nixpkgsupd

/-- JSON value model.  Objects are association lists of key/value pairs. -/
inductive Json : Type where
  | null : Json
  | bool : Bool → Json
  | num : Int → Json
  | str : String → Json
  | arr : List Json → Json
  | obj : List (String × Json) → Json
deriving Repr

/-- Association-list lookup used for JSON object field access.  Decoded
`serde_json` objects have unique keys, so first-match lookup agrees with the
map semantics of `serde_json::Map`. -/
def jlookup (key : String) : List (String × Json) → Option Json
  | [] => none
  | (k, v) :: rest => if k = key then some v else jlookup key rest

/-- Model of `serde_json::Value::get` for string indices: field lookup on
objects, `none` on every other value. -/
def Json.get (j : Json) (key : String) : Option Json :=
  match j with
  | .obj fields => jlookup key fields
  | _ => none

/-- Model of `serde_json::Value::as_str`. -/
def Json.asStr (j : Json) : Option String :=
  match j with
  | .str s => some s
  | _ => none

/-- Result of a decode step: `serde` succeeds or fails with an error
message. -/
inductive DResult (α : Type) : Type where
  | ok (a : α) : DResult α
  | err (msg : String) : DResult α
deriving Repr, DecidableEq

def DResult.bind {α β : Type} (r : DResult α) (f : α → DResult β) : DResult β :=
  match r with
  | .ok a => f a
  | .err m => .err m

def DResult.map {α β : Type} (f : α → β) (r : DResult α) : DResult β :=
  match r with
  | .ok a => .ok (f a)
  | .err m => .err m

instance : Monad DResult where
  pure := DResult.ok
  bind := DResult.bind
  map := DResult.map

/-- Model of deserializing a `String` from a JSON value. -/
def decodeString : Json → DResult String
  | .str s => .ok s
  | _ => .err "expected string"

/-- Model of deserializing a `u64` from a JSON value: an integral number in
`[0, 2^64)`. -/
def decodeU64 : Json → DResult Nat
  | .num n => if 0 ≤ n ∧ n < 2 ^ 64 then .ok n.toNat else .err "expected u64"
  | _ => .err "expected u64"

/-- Model of deserializing a `u8` from a JSON value: an integral number in
`[0, 256)`. -/
def decodeU8 : Json → DResult Nat
  | .num n => if 0 ≤ n ∧ n < 256 then .ok n.toNat else .err "expected u8"
  | _ => .err "expected u8"

/-- Model of deserializing a `bool` from a JSON value. -/
def decodeBool : Json → DResult Bool
  | .bool b => .ok b
  | _ => .err "expected bool"

/-- Model of serde's handling of an `Option<T>` struct field: an absent key
and an explicit `null` both give `none`; any other value is decoded with the
field's decoder. -/
def optField {α : Type} (fields : List (String × Json)) (key : String)
    (dec : Json → DResult α) : DResult (Option α) :=
  match jlookup key fields with
  | none => .ok none
  | some .null => .ok none
  | some v => (dec v).map some

/-- Model of serde's handling of a required struct field: absence is an
error, otherwise the value is decoded with the field's decoder. -/
def reqField {α : Type} (fields : List (String × Json)) (key : String)
    (dec : Json → DResult α) : DResult α :=
  match jlookup key fields with
  | none => .err ("missing field " ++ key)
  | some v => dec v

/-! Data model of `src/lockfile.rs`. -/

/-- The `GitServiceType` enum of `src/lockfile.rs`. -/
inductive GitServiceType : Type where
  | gitHub : GitServiceType
  | gitLab : GitServiceType
  | sourcehut : GitServiceType
deriving Repr, DecidableEq

/-- Model of deserializing `GitServiceType` (serde `rename_all = lowercase`). -/
def decodeGitServiceType (s : String) : Option GitServiceType :=
  if s = "github" then some .gitHub
  else if s = "gitlab" then some .gitLab
  else if s = "sourcehut" then some .sourcehut
  else none

/-- Serialization of `GitServiceType` (serde `rename_all = lowercase`). -/
def GitServiceType.serialize : GitServiceType → String
  | .gitHub => "github"
  | .gitLab => "gitlab"
  | .sourcehut => "sourcehut"

/-- The `Locked` enum of `src/lockfile.rs`: the `locked` key of a lockfile
node. -/
inductive Locked : Type where
  | path (path : String) (rev : Option String) (lastModified : Nat) : Locked
  | tarball (url : String) (rev : Option String) (lastModified : Option Nat) : Locked
  | git (lastModified : Option Nat) (ref_ : String) (rev : String)
      (shallow : Option Bool) (url : String) : Locked
  | gitService (type_ : GitServiceType) (owner : String) (repo : String)
      (rev : String) (lastModified : Option Nat) (host : Option String) : Locked
  | other (type_ : String) (rev : Option String) (url : Option String)
      (lastModified : Option Nat) : Locked
deriving Repr, DecidableEq

/-- Model of `Locked::rev` from `src/lockfile.rs`. -/
def Locked.rev : Locked → Option String
  | .path _ rev _ | .tarball _ rev _ | .other _ rev _ _ => rev
  | .gitService _ _ _ rev _ _ | .git _ _ rev _ _ => some rev

/-- Model of `Locked::url_no_git` from `src/lockfile.rs`. -/
def Locked.url_no_git : Locked → Option String
  | .tarball url _ _ => some url
  | .path _ _ _ | .git _ _ _ _ _ | .gitService _ _ _ _ _ _ | .other _ _ _ _ => none

/-- Model of `Locked::last_modified` from `src/lockfile.rs`. -/
def Locked.last_modified : Locked → Option Nat
  | .path _ _ lastModified => some lastModified
  | .tarball _ _ lastModified | .git lastModified _ _ _ _
  | .gitService _ _ _ _ lastModified _ | .other _ _ _ lastModified => lastModified

/-- Discriminator for the `Tarball` case of `Locked`. -/
def Locked.isTarball : Locked → Bool
  | .tarball _ _ _ => true
  | _ => false

/-- The `Original` enum of `src/lockfile.rs`: the `original` key of a
lockfile node. -/
inductive Original : Type where
  | indirect (id : String) (rev : Option String) (ref_ : Option String) : Original
  | path : Original
  | tarball : Original
  | file : Original
  | git (ref_ : Option String) : Original
  | mercurial : Original
  | gitService (type_ : GitServiceType) (ref_ : Option String) : Original
  | other (type_ : String) : Original
deriving Repr, DecidableEq

/-- Model of `Original::ref_` from `src/lockfile.rs`. -/
def Original.ref_ : Original → Option String
  | .indirect _ _ ref_ | .gitService _ ref_ | .git ref_ => ref_
  | .path | .tarball | .file | .mercurial | .other _ => none

/-- The `OriginalExtra` struct of `src/lockfile.rs`: the typed `Original`
plus the flattened capture of the node's fields.  Serde's flatten machinery
deserializes both flattened fields from the same buffered entry list; an
enum (deserialized through `deserialize_any`) and a `HashMap` (deserialized
through `deserialize_map`) both read the buffer without consuming entries,
so `extra` receives every field of the object. -/
structure OriginalExtra : Type where
  inner : Original
  extra : List (String × Json)
deriving Repr

/-- The `LockfileNode` struct of `src/lockfile.rs`. -/
structure LockfileNode : Type where
  locked : Locked
  original : OriginalExtra
deriving Repr

/-- The (single-variant) `Lockfile` enum of `src/lockfile.rs`: version-7
lockfiles keep the root node id and the raw, undecoded node map. -/
structure Lockfile : Type where
  root_id : String
  raw_nodes : List (String × Json)
deriving Repr

/-! Decoding of `src/lockfile.rs` types, following serde's derive semantics.

`Locked` and `Original` are internally tagged enums (`tag = "type"`) whose
trailing variants are `#[serde(untagged)]`.  Serde first matches the tag
against the tagged variant names; a matching tag selects that variant (whose
field errors propagate), an unmatched tag falls through to the untagged
variants, which are tried in declaration order.  Unknown fields inside a
variant are ignored (`deny_unknown_fields` is not used anywhere). -/

/-- Decode attempt for the untagged `Locked::GitService` variant. -/
def decodeLockedGitService (t : String) (fields : List (String × Json)) :
    DResult Locked :=
  match decodeGitServiceType t with
  | none => .err "unknown git service"
  | some st => do
    let owner ← reqField fields "owner" decodeString
    let repo ← reqField fields "repo" decodeString
    let rev ← reqField fields "rev" decodeString
    let lastModified ← optField fields "lastModified" decodeU64
    let host ← optField fields "host" decodeString
    pure (.gitService st owner repo rev lastModified host)

/-- Decode attempt for the untagged `Locked::Other` variant. -/
def decodeLockedOther (t : String) (fields : List (String × Json)) :
    DResult Locked := do
  let rev ← optField fields "rev" decodeString
  let url ← optField fields "url" decodeString
  let lastModified ← optField fields "lastModified" decodeU64
  pure (.other t rev url lastModified)

/-- Model of `Locked`'s derived `Deserialize` (internally tagged on `type`,
`rename_all = lowercase`, `rename_all_fields = camelCase`, with untagged
fallbacks `GitService` then `Other`). -/
def decodeLocked (j : Json) : DResult Locked :=
  match j with
  | .obj fields =>
    match jlookup "type" fields with
    | some (.str "path") => do
      let path ← reqField fields "path" decodeString
      let rev ← optField fields "rev" decodeString
      let lastModified ← reqField fields "lastModified" decodeU64
      pure (.path path rev lastModified)
    | some (.str "tarball") => do
      let url ← reqField fields "url" decodeString
      let rev ← optField fields "rev" decodeString
      let lastModified ← optField fields "lastModified" decodeU64
      pure (.tarball url rev lastModified)
    | some (.str "git") => do
      let lastModified ← optField fields "lastModified" decodeU64
      let ref_ ← reqField fields "ref" decodeString
      let rev ← reqField fields "rev" decodeString
      let shallow ← optField fields "shallow" decodeBool
      let url ← reqField fields "url" decodeString
      pure (.git lastModified ref_ rev shallow url)
    | some (.str t) =>
      match decodeLockedGitService t fields with
      | .ok l => .ok l
      | .err _ => decodeLockedOther t fields
    | some _ => .err "tag is not a string"
    | none => .err "missing tag"
  | _ => .err "expected object"

/-- Decode attempt for the untagged `Original::GitService` variant. -/
def decodeOriginalGitService (t : String) (fields : List (String × Json)) :
    DResult Original :=
  match decodeGitServiceType t with
  | none => .err "unknown git service"
  | some st => do
    let ref_ ← optField fields "ref" decodeString
    pure (.gitService st ref_)

/-- Tag dispatch of `Original`'s derived `Deserialize`: the tagged variant
names are tried first; an unmatched tag falls through to the untagged
variants (`GitService`, then the catch-all `Other`).  Unit-like tagged
variants (`path`, `tarball`, `file`, `mercurial`) succeed on the tag alone;
remaining fields are ignored. -/
def decodeOriginalTagged (t : String) (fields : List (String × Json)) :
    DResult Original :=
  if t = "indirect" then do
    let id ← reqField fields "id" decodeString
    let rev ← optField fields "rev" decodeString
    let ref_ ← optField fields "ref" decodeString
    pure (.indirect id rev ref_)
  else if t = "path" then .ok .path
  else if t = "tarball" then .ok .tarball
  else if t = "file" then .ok .file
  else if t = "git" then do
    let ref_ ← optField fields "ref" decodeString
    pure (.git ref_)
  else if t = "mercurial" then .ok .mercurial
  else
    match decodeOriginalGitService t fields with
    | .ok o => .ok o
    | .err _ => .ok (.other t)

/-- Model of `Original`'s derived `Deserialize` (internally tagged on
`type`, `rename_all = lowercase`, with untagged fallbacks `GitService` then
`Other`). -/
def decodeOriginal (j : Json) : DResult Original :=
  match j with
  | .obj fields =>
    match jlookup "type" fields with
    | some (.str t) => decodeOriginalTagged t fields
    | some _ => .err "tag is not a string"
    | none => .err "missing tag"
  | _ => .err "expected object"

/-- Model of `OriginalExtra`'s derived `Deserialize`: both flattened fields
are deserialized from the buffered field list; the flattened `HashMap`
captures every field of the object (serde's flattened-map access does not
consume entries used by the sibling flattened enum). -/
def decodeOriginalExtra (j : Json) : DResult OriginalExtra :=
  match j with
  | .obj fields => (decodeOriginal j).map (fun inner => ⟨inner, fields⟩)
  | _ => .err "can only flatten structs and maps"

/-- Model of `LockfileNode`'s derived `Deserialize`. -/
def decodeLockfileNode (j : Json) : DResult LockfileNode :=
  match j with
  | .obj fields => do
    let locked ← reqField fields "locked" decodeLocked
    let original ← reqField fields "original" decodeOriginalExtra
    pure (⟨locked, original⟩ : LockfileNode)
  | _ => .err "expected object"

/-- Model of `Version::<7>::deserialize` from `src/serde_int_tag_hack.rs`:
deserialize a `u8` and require it to equal `7`. -/
def decodeVersion7 (j : Json) : DResult Unit :=
  match decodeU8 j with
  | .err m => .err m
  | .ok n => if n = 7 then .ok () else .err "unsupported version"

/-- Decode one entry of the raw `nodes` map: keys are strings, values stay
raw. -/
def decodeRawNodes (j : Json) : DResult (List (String × Json)) :=
  match j with
  | .obj fields => .ok fields
  | _ => .err "expected map"

/-- Model of `Lockfile`'s derived `Deserialize`.  The enum is
`#[serde(untagged)]` with the single variant `V7`; its struct decoding
requires the fields `version` (a `Version<7>`), `root` (a string) and
`nodes` (a map kept raw), and ignores any other field.  The node bodies are
never decoded here. -/
def decodeLockfile (j : Json) : DResult Lockfile :=
  match j with
  | .obj fields => do
    let _ ← reqField fields "version" decodeVersion7
    let root_id ← reqField fields "root" decodeString
    let raw_nodes ← reqField fields "nodes" decodeRawNodes
    pure (⟨root_id, raw_nodes⟩ : Lockfile)
  | _ => .err "expected object"

/-- Errors of `Lockfile::extract_input` from `src/lockfile.rs`: the
`ok_or_eyre("could not locate target node in lockfile")` missing-data error,
or the wrapped node-deserialization error. -/
inductive ExtractError : Type where
  | missingTarget : ExtractError
  | nodeDecode (msg : String) : ExtractError
deriving Repr, DecidableEq

/-- Result type of `Lockfile::extract_input`. -/
inductive ExtractResult : Type where
  | ok (node : LockfileNode) : ExtractResult
  | error (e : ExtractError) : ExtractResult
deriving Repr

/-- Model of `Lockfile::extract_input` from `src/lockfile.rs`: look up the root
node, follow `inputs[input_id]` (which must be a string node id), look up
that node, and fully decode it. -/
def Lockfile.extract_input (lf : Lockfile) (input_id : String) : ExtractResult :=
  match (jlookup lf.root_id lf.raw_nodes).bind (fun root_node =>
      ((root_node.get "inputs").bind (fun inputs =>
        (inputs.get input_id).bind Json.asStr)).bind (fun child_id =>
          jlookup child_id lf.raw_nodes)) with
  | none => .error .missingTarget
  | some raw_node =>
    match decodeLockfileNode raw_node with
    | .ok node => .ok node
    | .err m => .error (.nodeDecode m)

/-- Serialization of optional string fields: `None` becomes `null`. -/
def optJson (f : String → Json) : Option String → Json
  | none => .null
  | some s => f s

/-- Model of `Original`'s derived `Serialize` (internally tagged on `type`,
`rename_all = lowercase`; the untagged variants carry their own `type`
field). -/
def Original.serialize : Original → List (String × Json)
  | .indirect id rev ref_ =>
    [("type", .str "indirect"), ("id", .str id), ("rev", optJson .str rev),
     ("ref", optJson .str ref_)]
  | .path => [("type", .str "path")]
  | .tarball => [("type", .str "tarball")]
  | .file => [("type", .str "file")]
  | .git ref_ => [("type", .str "git"), ("ref", optJson .str ref_)]
  | .mercurial => [("type", .str "mercurial")]
  | .gitService st ref_ =>
    [("type", .str st.serialize), ("ref", optJson .str ref_)]
  | .other t => [("type", .str t)]

/-- Model of `OriginalExtra`'s derived `Serialize`: both flattened fields
are emitted into the same object, `inner` first, then `extra`. -/
def OriginalExtra.serialize (ex : OriginalExtra) : List (String × Json) :=
  ex.inner.serialize ++ ex.extra

/-! Model of the match engine of `src/main.rs`. -/

/-- Outcome of a fallible Rust computation: a value, an `Err` return
propagated with `?`, or a panic from an `unwrap`. -/
inductive RunResult (α : Type) : Type where
  | ok (a : α) : RunResult α
  | error : RunResult α
  | panic : RunResult α
deriving Repr, DecidableEq

/-- Nanoseconds per second; `SystemTime`/`Duration` values are modelled in
nanoseconds, their full precision, while `lastModified` is whole seconds. -/
def nsPerSec : Nat := 1000000000

/-- Model of `timestamp_matches` from `src/main.rs`.  `ref_match_age` (the
CLI freshness window) and `now` (the current time since the epoch) are in
nanoseconds, `last_modified` in seconds.  On Unix, `SystemTime` stores an
`i64` seconds field, so `UNIX_EPOCH.checked_add(Duration::from_secs(lm))`
returns `None` exactly when `lm ≥ 2^63`; the `ok_or_eyre` turns that into an
`Err`.  `last_modified.elapsed()` errs when the timestamp is in the future,
and the `.unwrap()` turns that into a panic.  The returned pair carries the
absolute timestamp (in nanoseconds) and the freshness verdict
`elapsed < ref_match_age`. -/
def timestamp_matches (ref_match_age now last_modified : Nat) :
    RunResult (Nat × Bool) :=
  if 2 ^ 63 ≤ last_modified then .error
  else
    let lastModifiedNs := last_modified * nsPerSec
    if now < lastModifiedNs then .panic
    else .ok (lastModifiedNs, decide (now - lastModifiedNs < ref_match_age))

/-- The freshness check as used by `process_flake`:
`locked.last_modified().map(|ts| timestamp_matches(cli, ts)).transpose()?`
followed by `.is_some_and(|x| x.1)` — an absent `lastModified` yields
`false`, a present one propagates `timestamp_matches`' error or panic and
otherwise yields its verdict. -/
def ref_fresh_ok (ref_match_age now : Nat) (lastModified : Option Nat) :
    RunResult Bool :=
  match lastModified with
  | none => .ok false
  | some lm =>
    match timestamp_matches ref_match_age now lm with
    | .ok x => .ok x.2
    | .error => .error
    | .panic => .panic

/-- The `NixFlakeMetadata` struct of `src/main.rs` (the decoded fields of
`nix flake metadata --json`). -/
structure NixFlakeMetadata : Type where
  locked : Locked
  locks : Lockfile
  resolved : Original
  resolved_url : String
deriving Repr

/-- The `MatchTarget` enum of `src/main.rs`. -/
inductive MatchTarget : Type where
  | flakeMetadata (metadata : NixFlakeMetadata) : MatchTarget
  | flakeInput (input : LockfileNode) (flake_ref_url : String) : MatchTarget
deriving Repr

/-- Model of `MatchTarget::locked` from `src/main.rs`. -/
def MatchTarget.locked : MatchTarget → Locked
  | .flakeMetadata metadata => metadata.locked
  | .flakeInput input _ => input.locked

/-- Model of `MatchTarget::original` from `src/main.rs`. -/
def MatchTarget.original : MatchTarget → Original
  | .flakeMetadata metadata => metadata.resolved
  | .flakeInput input _ => input.original.inner

/-- Model of `MatchTarget::flake_ref_url` from `src/main.rs`. -/
def MatchTarget.flake_ref_url : MatchTarget → String
  | .flakeMetadata metadata => metadata.resolved_url
  | .flakeInput _ flake_ref_url => flake_ref_url

/-- Model of `MatchTarget::matches_ref` from `src/main.rs`. -/
def MatchTarget.matches_ref (t : MatchTarget) (lockfile_node : LockfileNode) :
    Bool :=
  match lockfile_node.original.inner.ref_ with
  | none => false
  | some ref_ => decide (some ref_ = t.original.ref_)

/-- Model of `MatchTarget::matches_rev` from `src/main.rs`. -/
def MatchTarget.matches_rev (t : MatchTarget) (lockfile_node : LockfileNode) :
    Bool :=
  match lockfile_node.locked.rev with
  | none => false
  | some rev => decide (some rev = t.locked.rev)

/-- Model of `MatchTarget::matches_url` from `src/main.rs`. -/
def MatchTarget.matches_url (t : MatchTarget) (lockfile_node : LockfileNode) :
    Bool :=
  match lockfile_node.locked.url_no_git with
  | none => false
  | some url => decide (some url = t.locked.url_no_git)

/-- The skip condition of `process_flake` from `src/main.rs`:
`(target.matches_ref(&node) && node.locked.last_modified().map(..).transpose()?.is_some_and(|x| x.1)) || target.matches_rev(&node) || target.matches_url(&node)`.
Rust's `&&` short-circuits, so the timestamp conversion (with its possible
error and panic) only runs when the ref matches. -/
def process_flake_skips (t : MatchTarget) (n : LockfileNode)
    (ref_match_age now : Nat) : RunResult Bool :=
  if t.matches_ref n then
    match ref_fresh_ok ref_match_age now n.locked.last_modified with
    | .ok fresh => .ok (fresh || t.matches_rev n || t.matches_url n)
    | .error => .error
    | .panic => .panic
  else .ok (t.matches_rev n || t.matches_url n)

/-- What `process_flake` does with a decoded node: return early (skip) when
the filter condition holds, otherwise hand the flake to the subcommand. -/
inductive ProcessAction : Type where
  | skipped : ProcessAction
  | processed : ProcessAction
deriving Repr, DecidableEq

/-- The skip-or-process decision of `process_flake` from `src/main.rs`. -/
def process_flake_action (t : MatchTarget) (n : LockfileNode)
    (ref_match_age now : Nat) : RunResult ProcessAction :=
  match process_flake_skips t n ref_match_age now with
  | .ok true => .ok .skipped
  | .ok false => .ok .processed
  | .error => .error
  | .panic => .panic

/-! Spec-side description of the match verdict, written from the claim's
words (`overall ⇔ (refOk ∧ refFreshOk) ∨ revOk ∨ urlOk`), to be compared
with the code-side `process_flake_skips`. -/

/-- Spec wording: the candidate's original ref is present and equals the
target's ref. -/
def specRefOk (t : MatchTarget) (n : LockfileNode) : Prop :=
  ∃ r, n.original.inner.ref_ = some r ∧ t.original.ref_ = some r

/-- Spec wording: the candidate's locked rev is present and equals the
target's rev. -/
def specRevOk (t : MatchTarget) (n : LockfileNode) : Prop :=
  ∃ r, n.locked.rev = some r ∧ t.locked.rev = some r

/-- Spec wording: the candidate's locked non-git URL is present and equals
the target's non-git URL. -/
def specUrlOk (t : MatchTarget) (n : LockfileNode) : Prop :=
  ∃ u, n.locked.url_no_git = some u ∧ t.locked.url_no_git = some u

/-- Spec wording: `lastModified` is present and `now − lastModified` is
strictly below the freshness window. -/
def specFreshOk (n : LockfileNode) (ref_match_age now : Nat) : Prop :=
  ∃ lm, n.locked.last_modified = some lm ∧ now - lm * nsPerSec < ref_match_age

/-- Spec wording of the overall verdict. -/
def specOverall (t : MatchTarget) (n : LockfileNode)
    (ref_match_age now : Nat) : Prop :=
  (specRefOk t n ∧ specFreshOk n ref_match_age now) ∨ specRevOk t n ∨
    specUrlOk t n

/-! Model of `reduce_diff_context` from `src/flake_nix.rs`. -/

/-- The `diff::Result<T>` enum of the `diff` crate: a removed line, an
unchanged line (present on both sides), or an added line. -/
inductive DiffLine (α : Type) : Type where
  | left (l : α) : DiffLine α
  | both (l r : α) : DiffLine α
  | right (r : α) : DiffLine α
deriving Repr, DecidableEq

/-- Whether a diff element is a changed line
(`matches!(res, diff::Result::Left(_) | diff::Result::Right(_))`). -/
def DiffLine.isChange {α : Type} : DiffLine α → Bool
  | .left _ => true
  | .right _ => true
  | .both _ _ => false

/-- One `result.push` guarded by `!result.contains(&diff)`.  In the Rust
code `result` is a `Vec<&diff::Result<T>>` and `Vec::contains` compares
through the references with `PartialEq`, i.e. by value. -/
def pushUnique {α : Type} [DecidableEq α] (result : List α) (d : α) : List α :=
  if d ∈ result then result else result ++ [d]

/-- Model of `reduce_diff_context` from `src/flake_nix.rs`: for each changed-line
index, append the window `[idx - context, idx + context]` (clamped to the
input) to the result, skipping elements already present by value. -/
def reduce_diff_context {α : Type} [DecidableEq α]
    (input : List (DiffLine α)) (context : Nat) : List (DiffLine α) :=
  ((input.enum.filter (fun p => p.2.isChange)).map (fun p => p.1)).foldl
    (fun result diffIdx =>
      ((input.take (min (diffIdx + context + 1) input.length)).drop
        (diffIdx - context)).foldl pushUnique result)
    []

/-! Model of flake discovery (`filter_gcroot`) from `src/main.rs`.
Filesystem paths are modelled as lists of components of an absolute path
(`[]` is the root `/`); the filesystem itself is a predicate saying which
paths exist.  The per-entry `read_link` has already happened: each marker is
given as its resolved target path. -/

/-- Absolute filesystem path, as a list of components. -/
abbrev RPath := List String

/-- Model of `Path::file_name`: the last component. -/
def fileName (p : RPath) : Option String := p.getLast?

/-- Model of `Path::parent`: drop the last component; the root has no
parent. -/
def parentDir (p : RPath) : Option RPath :=
  match p with
  | [] => none
  | _ :: _ => some p.dropLast

/-- Model of `Path::ancestors` for an absolute path: the path itself, then
each parent, down to the root. -/
def ancestors (p : RPath) : List RPath :=
  (List.range (p.length + 1)).map (fun k => p.take (p.length - k))

/-- The build-result test of `filter_gcroot`:
`name == "result" || name.as_encoded_bytes().starts_with(b"result-")`. -/
def isResultName : Option String → Bool
  | none => false
  | some n => n == "result" || "result-".isPrefixOf n

/-- Classification of a resolved gcroot, from `filter_gcroot`: first look
for an ancestor literally named `.direnv` and take its parent (a direnv
marker), otherwise check the file name for `result`/`result-*` and take the
parent (a build-result marker); anything else is ignored. -/
def classify (gcroot : RPath) : Option (RPath × Bool × Bool) :=
  match ((ancestors gcroot).find?
      (fun a => fileName a == some ".direnv")).bind parentDir with
  | some dir => some (dir, true, false)
  | none =>
    match (if isResultName (fileName gcroot) then parentDir gcroot else none) with
    | some dir => some (dir, false, true)
    | none => none

/-- The `Flake` struct of `src/main.rs`. -/
structure Flake : Type where
  id : String
  directory : RPath
  gcroots : List RPath
  has_build_result : Bool
  has_direnv_gc_roots : Bool
  lockfile_path : RPath
deriving Repr, DecidableEq

/-- The occupied-entry branch of `filter_gcroot`: push the gcroot and OR the
flags into the existing record for `dir`. -/
def updateFlake (flakes : List Flake) (dir : RPath) (gcroot : RPath)
    (isDirenv isBuild : Bool) : List Flake :=
  flakes.map (fun f =>
    if f.directory = dir then
      { f with
        gcroots := f.gcroots ++ [gcroot]
        has_direnv_gc_roots := f.has_direnv_gc_roots || isDirenv
        has_build_result := f.has_build_result || isBuild }
    else f)

/-- Model of `filter_gcroot` from `src/main.rs`, for one directory entry whose
symlink resolved to `gcroot`.  The `IdHashMap` keyed by `directory` is
modelled as a list with unique directories; `entry` lookup is a scan. -/
def filter_gcroot (pathExists : RPath → Bool) (flake_id : String)
    (flakes : List Flake) (gcroot : RPath) : List Flake :=
  if !pathExists gcroot then flakes
  else
    match classify gcroot with
    | none => flakes
    | some (dir, isDirenv, isBuild) =>
      if flakes.any (fun f => f.directory == dir) then
        updateFlake flakes dir gcroot isDirenv isBuild
      else
        let lockfile_path := dir ++ ["flake.lock"]
        if !pathExists lockfile_path then flakes
        else
          flakes ++ [⟨flake_id, dir, [gcroot], isBuild, isDirenv, lockfile_path⟩]

/-- The discovery loop of `main`: fold `filter_gcroot` over the resolved
marker entries, starting from an empty map. -/
def discover (pathExists : RPath → Bool) (flake_id : String)
    (entries : List RPath) : List Flake :=
  entries.foldl (filter_gcroot pathExists flake_id) []

/-- The markers of `entries` that exist and classify to owning directory
`dir`, together with their direnv/build-result flags. -/
def classifiedMarkers (pathExists : RPath → Bool) (entries : List RPath)
    (dir : RPath) : List (RPath × Bool × Bool) :=
  entries.filterMap (fun g =>
    if pathExists g then
      (classify g).bind (fun c =>
        if c.1 = dir then some (g, c.2.1, c.2.2) else none)
    else none)

/-! Model of the interactive command dispatch of `src/update.rs`.  Terminal
output is abstracted to the effects that matter for the dispatch contract;
external process results and operator answers are scripted input streams. -/

/-- The `PromptCommand` enum of `src/update.rs`. -/
inductive PromptCommand : Type where
  | applyDiff : PromptCommand
  | nextFlake : PromptCommand
  | launchEditor : PromptCommand
  | launchShell : PromptCommand
  | runNixFlakeUpdate : PromptCommand
  | deleteGcroots : PromptCommand
  | lock : PromptCommand
  | refreshDirenv : PromptCommand
  | commit : PromptCommand
  | printHelp : PromptCommand
deriving Repr, DecidableEq

/-- Observable effects of dispatching one command. -/
inductive Effect : Type where
  /-- Write (`fs::write`) of the proposed `flake.nix` text. -/
  | writeFile (path : RPath) : Effect
  /-- Removal (`fs::remove_file`) of a gcroot. -/
  | removeFile (path : RPath) : Effect
  /-- An external command launched through `run_cmd`. -/
  | execCmd (program : String) (args : List String) : Effect
  /-- The `$EDITOR` child process. -/
  | execEditor : Effect
  /-- The `$SHELL` child process. -/
  | execShell : Effect
  /-- The `"Dry run, not modifying files"` notice. -/
  | dryRunNote : Effect
  /-- Any other terminal message. -/
  | note : Effect
deriving Repr, DecidableEq

/-- Execution state: the scripted exit statuses for external commands, the
scripted operator input lines, and the trace of effects so far. -/
structure ExecState : Type where
  cmdResults : List Bool
  inputLines : List String
  trace : List Effect
deriving Repr, DecidableEq

/-- Append one effect to the trace. -/
def addEffect (s : ExecState) (e : Effect) : ExecState :=
  { s with trace := s.trace ++ [e] }

/-- Model of `run_cmd` from `src/update.rs`: record the invocation and take
the next scripted exit status (`false` when the script runs dry). -/
def runCmd (program : String) (args : List String) (_dir : RPath)
    (s : ExecState) : Bool × ExecState :=
  (s.cmdResults.headD false,
    addEffect { s with cmdResults := s.cmdResults.tail } (.execCmd program args))

/-- Model of `read_line` from `src/update.rs`: take the next scripted
operator line (empty when the script runs dry). -/
def readLine (s : ExecState) : String × ExecState :=
  (s.inputLines.headD "", { s with inputLines := s.inputLines.tail })

/-- ASCII whitespace test for the `str::trim` model. -/
def isWs (c : Char) : Bool := c == ' ' || c == '\t' || c == '\n' || c == '\r'

/-- Model of Rust's `str::trim`: strip whitespace from both ends.  (Rust
trims the full Unicode whitespace set; the operator answers compared against
`"y"` only involve ASCII.) -/
def strTrim (s : String) : String :=
  ⟨((s.data.dropWhile isWs).reverse.dropWhile isWs).reverse⟩

/-- Model of `refresh_direnv` from `src/update.rs`: ask for confirmation; on `y`,
either reload direnv (writes allowed) or print the dry-run notice. -/
def refresh_direnv (allow_write : Bool) (flake : Flake) (s : ExecState) :
    ExecState :=
  let (ans, s) := readLine s
  if strTrim ans == "y" then
    if allow_write then
      let (ok, s) := runCmd "direnv" ["exec", ".", "true"] flake.directory s
      if !ok then addEffect s .note else s
    else addEffect s .dryRunNote
  else s

/-- Model of `git_commit_changes` from `src/update.rs`: query repository state with
two read-only git commands, ask for confirmation; on `y`, either stage and
commit (writes allowed) or print the dry-run notice. -/
def git_commit_changes (allow_write : Bool) (flake : Flake) (s : ExecState) :
    ExecState :=
  let (_isEmpty, s) := runCmd "git" ["log", "-0"] flake.directory s
  let (_stageDirty, s) :=
    runCmd "git" ["diff", "--quiet", "--cached", "--exit-code"] flake.directory s
  let (ans, s) := readLine s
  if strTrim ans == "y" then
    if allow_write then
      let (okAdd, s) := runCmd "git" ["add", "flake.nix", "flake.lock"] flake.directory s
      if okAdd then
        let (okCommit, s) :=
          runCmd "git" ["commit", "-m", "chore: bump flake input " ++ flake.id]
            flake.directory s
        if !okCommit then addEffect s .note else s
      else addEffect s .note
    else addEffect s .dryRunNote
  else s

/-- The `ControlFlow<()>` returned by `execute_prompt_cmd`. -/
inductive Flow : Type where
  | brk : Flow
  | cont : Flow
deriving Repr, DecidableEq

/-- The set of commands gated by the up-front dry-run check in
`execute_prompt_cmd`. -/
def checkDryRunHere (cmd : PromptCommand) : Bool :=
  match cmd with
  | .applyDiff | .runNixFlakeUpdate | .deleteGcroots | .lock => true
  | _ => false

/-- Model of `execute_prompt_cmd` from `src/update.rs`.  `in_git_repo` abstracts the
`flake.in_git_repo()` filesystem query. -/
def execute_prompt_cmd (allow_write : Bool) (flake : Flake)
    (in_git_repo : Bool) (cmd : PromptCommand) (s : ExecState) :
    ExecState × Flow :=
  if checkDryRunHere cmd && !allow_write then
    (addEffect s .dryRunNote, .cont)
  else
    match cmd with
    | .applyDiff =>
      (addEffect (addEffect s (.writeFile (flake.directory ++ ["flake.nix"])))
        .note, .cont)
    | .nextFlake => (addEffect s .note, .brk)
    | .launchEditor =>
      let s := addEffect s .execEditor
      let ok := s.cmdResults.headD false
      let s := { s with cmdResults := s.cmdResults.tail }
      let s := if !ok then addEffect s .note else s
      (addEffect s .note, .cont)
    | .launchShell =>
      let s := addEffect s .execShell
      let ok := s.cmdResults.headD false
      let s := { s with cmdResults := s.cmdResults.tail }
      let s := if !ok then addEffect s .note else s
      (addEffect s .note, .cont)
    | .runNixFlakeUpdate =>
      let (ok, s) := runCmd "nix" ["flake", "update", flake.id] flake.directory s
      if !ok then (addEffect s .note, .cont)
      else
        let s :=
          if flake.has_direnv_gc_roots then refresh_direnv allow_write flake s
          else s
        let s := if in_git_repo then git_commit_changes allow_write flake s else s
        (s, .cont)
    | .deleteGcroots =>
      (flake.gcroots.foldl (fun s g => addEffect s (.removeFile g))
        (addEffect s .note), .cont)
    | .lock =>
      let (ok, s) := runCmd "nix" ["flake", "lock"] flake.directory s
      if !ok then (addEffect s .note, .cont)
      else
        let s :=
          if flake.has_direnv_gc_roots then refresh_direnv allow_write flake s
          else s
        let s := if in_git_repo then git_commit_changes allow_write flake s else s
        (s, .cont)
    | .refreshDirenv => (refresh_direnv allow_write flake s, .cont)
    | .commit => (git_commit_changes allow_write flake s, .cont)
    | .printHelp => (addEffect s .note, .cont)

/-- The two repository queries issued by `git_commit_changes` before its
confirmation prompt are the only external commands that may run during a dry
run; both are read-only. -/
def isReadOnlyGitQuery : Effect → Bool
  | .execCmd "git" ("log" :: _) => true
  | .execCmd "git" ("diff" :: _) => true
  | _ => false

/-- An effect that mutates state outside the terminal: a file write, a file
removal, or an external command other than the read-only git queries (the
editor and shell children may also mutate, and count here). -/
def Effect.isMutation : Effect → Bool
  | .writeFile _ => true
  | .removeFile _ => true
  | .execEditor => true
  | .execShell => true
  | .dryRunNote => false
  | .note => false
  | e@(.execCmd _ _) => !isReadOnlyGitQuery e

/-! Theorems for the claims. -/

/-- C8: for every `LockedState` variant, `rev()` returns a present value for
the `git` and `gitService` variants and the stored optional value for
`path`, `tarball` and `other`; and `urlExcludingGit()` returns none for
every variant except `tarball`, for which it returns the locked URL. -/
theorem c8_locked_accessors :
    (∀ p r lm, (Locked.path p r lm).rev = r) ∧
    (∀ u r lm, (Locked.tarball u r lm).rev = r) ∧
    (∀ lm rf rv sh u, (Locked.git lm rf rv sh u).rev = some rv) ∧
    (∀ st o rp rv lm h, (Locked.gitService st o rp rv lm h).rev = some rv) ∧
    (∀ ty rv u lm, (Locked.other ty rv u lm).rev = rv) ∧
    (∀ u r lm, (Locked.tarball u r lm).url_no_git = some u) ∧
    (∀ l : Locked, l.url_no_git.isSome = l.isTarball) := by
  refine ⟨fun _ _ _ => rfl, fun _ _ _ => rfl, fun _ _ _ _ _ => rfl,
    fun _ _ _ _ _ _ => rfl, fun _ _ _ _ => rfl, fun _ _ _ => rfl, fun l => ?_⟩
  cases l <;> rfl

/-- C10: when the candidate's representable `lastModified` timestamp lies
strictly in the future relative to the current time, `timestamp_matches`
panics (the `SystemTime::elapsed` error is unwrapped) instead of returning a
verdict or a recoverable error. -/
theorem c10_future_timestamp_panics (window now lm : Nat)
    (hrep : lm < 2 ^ 63) (hfut : now < lm * nsPerSec) :
    timestamp_matches window now lm = .panic := by
  unfold timestamp_matches
  rw [if_neg (by omega), if_pos hfut]

/-- Witness for C10: `lastModified = 1` second with the clock at the epoch
panics. -/
theorem c10_witness : timestamp_matches 0 0 1 = .panic :=
  c10_future_timestamp_panics 0 0 1 (by norm_num) (by norm_num [nsPerSec])

/-- C2: the freshness check used by `process_flake` returns `true` exactly
when `lastModified` is present and `now − lastModified` is strictly below
the freshness window (for timestamps that are representable and not in the
future); in particular `lastModified = now − window + 1s` passes and
`lastModified = now − window − 1s` fails; and a `lastModified` whose
conversion to `SystemTime` overflows produces an error, not a silent
`false`. -/
theorem c2_freshness_check :
    (∀ window now : Nat, ∀ lmOpt : Option Nat,
      (∀ lm, lmOpt = some lm → lm < 2 ^ 63 ∧ lm * nsPerSec ≤ now) →
      (ref_fresh_ok window now lmOpt = .ok true ↔
        ∃ lm, lmOpt = some lm ∧ now - lm * nsPerSec < window)) ∧
    (∀ window now lm : Nat, 2 ^ 63 ≤ lm →
      ref_fresh_ok window now (some lm) = .error) ∧
    (∀ window lm : Nat, nsPerSec ≤ window → lm < 2 ^ 63 →
      ref_fresh_ok window (lm * nsPerSec + window - nsPerSec) (some lm) =
        .ok true) ∧
    (∀ window lm : Nat, lm < 2 ^ 63 →
      ref_fresh_ok window (lm * nsPerSec + window + nsPerSec) (some lm) =
        .ok false) := by
  have hmain : ∀ window now lm : Nat, lm < 2 ^ 63 → lm * nsPerSec ≤ now →
      ref_fresh_ok window now (some lm) =
        .ok (decide (now - lm * nsPerSec < window)) := by
    intro window now lm h1 h2
    have h1' : ¬ (2 ^ 63 ≤ lm) := by omega
    have h2' : ¬ (now < lm * nsPerSec) := by omega
    simp only [ref_fresh_ok, timestamp_matches]
    rw [if_neg h1', if_neg h2']
  refine ⟨?_, ?_, ?_, ?_⟩
  · intro window now lmOpt hvalid
    cases lmOpt with
    | none => simp [ref_fresh_ok]
    | some lm =>
      obtain ⟨h1, h2⟩ := hvalid lm rfl
      rw [hmain window now lm h1 h2]
      constructor
      · intro h
        refine ⟨lm, rfl, ?_⟩
        have := congrArg (fun r => match r with
          | RunResult.ok b => b | _ => false) h
        simpa using of_decide_eq_true this
      · rintro ⟨lm', hlm', hfresh⟩
        obtain rfl : lm = lm' := by injection hlm'
        rw [decide_eq_true hfresh]
  · intro window now lm h
    simp only [ref_fresh_ok, timestamp_matches]
    rw [if_pos h]
  · intro window lm hw h1
    rw [hmain window (lm * nsPerSec + window - nsPerSec) lm h1
      (by simp only [nsPerSec] at *; omega)]
    congr 1
    rw [decide_eq_true (by simp only [nsPerSec] at *; omega)]
  · intro window lm h1
    rw [hmain window (lm * nsPerSec + window + nsPerSec) lm h1
      (by simp only [nsPerSec] at *; omega)]
    congr 1
    rw [decide_eq_false (by simp only [nsPerSec] at *; omega)]

/-- Witness for C2: for a one-week window (in nanoseconds), a timestamp one
second inside the window passes, one second outside fails, and the
overflowing timestamp `2^63` errors. -/
theorem c2_witness :
    ref_fresh_ok 604800000000000 604800000000000 (some 1) = .ok true ∧
    ref_fresh_ok 604800000000000 (604800 * nsPerSec + 604800000000000 +
      nsPerSec) (some 604800) = .ok false ∧
    ref_fresh_ok 604800000000000 0 (some (2 ^ 63)) = .error :=
  ⟨(c2_freshness_check.1 604800000000000 604800000000000 (some 1)
      (fun lm hlm => by
        obtain rfl : lm = 1 := by injection hlm.symm
        exact ⟨by norm_num, by norm_num [nsPerSec]⟩)).mpr
      ⟨1, rfl, by norm_num [nsPerSec]⟩,
    c2_freshness_check.2.2.2 604800000000000 604800 (by norm_num),
    c2_freshness_check.2.1 604800000000000 0 (2 ^ 63) le_rfl⟩

/-- The freshness verdict as a boolean, for relating code and spec. -/
def specFreshBool (n : LockfileNode) (ref_match_age now : Nat) : Bool :=
  match n.locked.last_modified with
  | none => false
  | some lm => decide (now - lm * nsPerSec < ref_match_age)

theorem matches_ref_iff (t : MatchTarget) (n : LockfileNode) :
    t.matches_ref n = true ↔ specRefOk t n := by
  unfold MatchTarget.matches_ref specRefOk
  cases h : n.original.inner.ref_ <;> simp [h, eq_comm]

theorem matches_rev_iff (t : MatchTarget) (n : LockfileNode) :
    t.matches_rev n = true ↔ specRevOk t n := by
  unfold MatchTarget.matches_rev specRevOk
  cases h : n.locked.rev <;> simp [h, eq_comm]

theorem matches_url_iff (t : MatchTarget) (n : LockfileNode) :
    t.matches_url n = true ↔ specUrlOk t n := by
  unfold MatchTarget.matches_url specUrlOk
  cases h : n.locked.url_no_git <;> simp [h, eq_comm]

theorem specFreshBool_iff (n : LockfileNode) (window now : Nat) :
    specFreshBool n window now = true ↔ specFreshOk n window now := by
  unfold specFreshBool specFreshOk
  cases h : n.locked.last_modified <;> simp [h]

/-- Under valid timestamps (representable, not in the future), the filter
condition of `process_flake` evaluates without error or panic to the
three-disjunct boolean verdict. -/
theorem process_flake_skips_eq (t : MatchTarget) (n : LockfileNode)
    (window now : Nat)
    (hvalid : ∀ lm, n.locked.last_modified = some lm →
      lm < 2 ^ 63 ∧ lm * nsPerSec ≤ now) :
    process_flake_skips t n window now =
      .ok ((t.matches_ref n && specFreshBool n window now) ||
        t.matches_rev n || t.matches_url n) := by
  unfold process_flake_skips
  by_cases href : t.matches_ref n = true
  · rw [if_pos href, href]
    cases hlm : n.locked.last_modified with
    | none => simp [ref_fresh_ok, hlm, specFreshBool]
    | some lm =>
      obtain ⟨h1, h2⟩ := hvalid lm hlm
      have h1' : ¬ (2 ^ 63 ≤ lm) := by omega
      have h2' : ¬ (now < lm * nsPerSec) := by omega
      simp only [ref_fresh_ok, timestamp_matches, specFreshBool, hlm]
      rw [if_neg h1', if_neg h2']
      simp
  · rw [Bool.not_eq_true] at href
    rw [if_neg (by simp [href])]
    simp [href]

/-- C1: the overall match verdict holds exactly when (the candidate's
original ref is present and equals the target's ref AND the freshness check
passes) OR (the candidate's locked rev is present and equals the target's
rev) OR (the candidate's locked non-git URL is present and equals the
target's non-git URL); and `process_flake` skips a flake exactly when this
verdict is true (assuming the node's timestamp is representable and not in
the future, so the check neither errors nor panics). -/
theorem c1_process_flake_skip_iff (t : MatchTarget) (n : LockfileNode)
    (window now : Nat)
    (hvalid : ∀ lm, n.locked.last_modified = some lm →
      lm < 2 ^ 63 ∧ lm * nsPerSec ≤ now) :
    process_flake_action t n window now = .ok .skipped ↔
      specOverall t n window now := by
  have hb : ((t.matches_ref n && specFreshBool n window now) ||
      t.matches_rev n || t.matches_url n) = true ↔
      specOverall t n window now := by
    simp only [Bool.or_eq_true, Bool.and_eq_true, matches_ref_iff,
      matches_rev_iff, matches_url_iff, specFreshBool_iff, specOverall,
      or_assoc]
  unfold process_flake_action
  rw [process_flake_skips_eq t n window now hvalid]
  cases hc : ((t.matches_ref n && specFreshBool n window now) ||
      t.matches_rev n || t.matches_url n) with
  | true => simpa [hc] using hb.mp hc
  | false =>
    rw [hc] at hb
    simp only [Bool.false_eq_true, false_iff] at hb
    simp [hb]

/-- Witness for C1: a candidate whose locked rev equals the target's rev is
skipped even though its ref does not match. -/
theorem c1_witness :
    process_flake_action
      (.flakeInput
        ⟨.gitService .gitHub "NixOS" "nixpkgs" "abc" none none,
          ⟨.gitService .gitHub (some "nixos-unstable"), []⟩⟩ "github:NixOS/nixpkgs")
      ⟨.gitService .gitHub "NixOS" "nixpkgs" "abc" none none,
        ⟨.git none, []⟩⟩ 5 5 = .ok .skipped :=
  (c1_process_flake_skip_iff _ _ 5 5 (fun lm h => by
    simp [Locked.last_modified] at h)).mpr
    (Or.inr (Or.inl ⟨"abc", rfl, rfl⟩))

@[simp]
theorem dresult_bind_ok {α β : Type} (a : α) (f : α → DResult β) :
    (DResult.ok a >>= f) = f a := rfl

@[simp]
theorem dresult_bind_err {α β : Type} (m : String) (f : α → DResult β) :
    ((DResult.err m : DResult α) >>= f) = .err m := rfl

@[simp]
theorem dresult_pure {α : Type} (a : α) : (pure a : DResult α) = .ok a := rfl

/-- C4: decoding a lock document whose `version` field is an integer
different from 7 fails with a format error; a document with version 7 and
present `root` and `nodes` fields decodes successfully, keeping every node
body raw and undecoded. -/
theorem c4_lockfile_version_gate :
    (∀ (fields : List (String × Json)) (n : Int),
      jlookup "version" fields = some (.num n) → n ≠ 7 →
      ∃ m, decodeLockfile (.obj fields) = .err m) ∧
    (∀ (fields : List (String × Json)) (root : String)
        (nodes : List (String × Json)),
      jlookup "version" fields = some (.num 7) →
      jlookup "root" fields = some (.str root) →
      jlookup "nodes" fields = some (.obj nodes) →
      decodeLockfile (.obj fields) = .ok ⟨root, nodes⟩) := by
  constructor
  · intro fields n hv hn
    simp only [decodeLockfile, reqField, hv, decodeVersion7, decodeU8]
    by_cases h : 0 ≤ n ∧ n < 256
    · rw [if_pos h]
      have h7 : ¬ (n.toNat = 7) := by omega
      simp only [h7, if_false, dresult_bind_err, if_neg]
      exact ⟨_, rfl⟩
    · rw [if_neg h]
      exact ⟨_, rfl⟩
  · intro fields root nodes h1 h2 h3
    simp only [decodeLockfile, reqField, h1, h2, h3]
    rfl

/-- Witness for C4: a concrete version-6 document is rejected, and a
concrete version-7 document with raw node bodies decodes without touching
them. -/
theorem c4_witness :
    (∃ m, decodeLockfile (.obj [("version", .num 6), ("root", .str "root"),
      ("nodes", .obj [("root", .null)])]) = .err m) ∧
    decodeLockfile (.obj [("version", .num 7), ("root", .str "root"),
      ("nodes", .obj [("root", .arr []), ("dep", .num 3)])]) =
      .ok ⟨"root", [("root", .arr []), ("dep", .num 3)]⟩ :=
  ⟨c4_lockfile_version_gate.1 _ 6 rfl (by decide),
    c4_lockfile_version_gate.2 _ "root" _ rfl rfl rfl⟩

/-- C5: `extract_input` returns the fully decoded node reached through the
three hops (root node, the node id under the root's `inputs[input_id]`, the
node stored under that id) and fails with the missing-data error when any
hop is absent. -/
theorem c5_extract_input (lf : Lockfile) (input_id : String) :
    (jlookup lf.root_id lf.raw_nodes = none →
      lf.extract_input input_id = .error .missingTarget) ∧
    (∀ root_node, jlookup lf.root_id lf.raw_nodes = some root_node →
      (root_node.get "inputs").bind
        (fun inputs => (inputs.get input_id).bind Json.asStr) = none →
      lf.extract_input input_id = .error .missingTarget) ∧
    (∀ root_node child_id,
      jlookup lf.root_id lf.raw_nodes = some root_node →
      (root_node.get "inputs").bind
        (fun inputs => (inputs.get input_id).bind Json.asStr) = some child_id →
      jlookup child_id lf.raw_nodes = none →
      lf.extract_input input_id = .error .missingTarget) ∧
    (∀ root_node child_id raw_node node,
      jlookup lf.root_id lf.raw_nodes = some root_node →
      (root_node.get "inputs").bind
        (fun inputs => (inputs.get input_id).bind Json.asStr) = some child_id →
      jlookup child_id lf.raw_nodes = some raw_node →
      decodeLockfileNode raw_node = .ok node →
      lf.extract_input input_id = .ok node) := by
  refine ⟨?_, ?_, ?_, ?_⟩
  · intro h
    simp [Lockfile.extract_input, h]
  · intro root_node h1 h2
    simp [Lockfile.extract_input, h1, h2]
  · intro root_node child_id h1 h2 h3
    simp [Lockfile.extract_input, h1, h2, h3]
  · intro root_node child_id raw_node node h1 h2 h3 h4
    simp [Lockfile.extract_input, h1, h2, h3, h4]

/-- Concrete node body used by the lockfile fixtures. -/
def exNodeJson : Json :=
  .obj [("locked", .obj [("type", .str "github"), ("owner", .str "NixOS"),
    ("repo", .str "nixpkgs"), ("rev", .str "abc"), ("lastModified", .num 100)]),
    ("original", .obj [("type", .str "github"), ("ref", .str "nixos-unstable")])]

/-- Concrete decoded form of `exNodeJson`. -/
def exNode : LockfileNode :=
  ⟨.gitService .gitHub "NixOS" "nixpkgs" "abc" (some 100) none,
    ⟨.gitService .gitHub (some "nixos-unstable"),
      [("type", .str "github"), ("ref", .str "nixos-unstable")]⟩⟩

/-- Concrete version-7 lockfile with one input under the root. -/
def exLockfile : Lockfile :=
  ⟨"root", [("root", .obj [("inputs", .obj [("nixpkgs", .str "nixpkgs-node")])]),
    ("nixpkgs-node", exNodeJson)]⟩

/-- Witness for C5: the fixture input decodes through the three hops, and a
missing input id fails with the missing-data error. -/
theorem c5_witness :
    exLockfile.extract_input "nixpkgs" = .ok exNode ∧
    exLockfile.extract_input "missing" = .error .missingTarget :=
  ⟨(c5_extract_input exLockfile "nixpkgs").2.2.2
      (.obj [("inputs", .obj [("nixpkgs", .str "nixpkgs-node")])])
      "nixpkgs-node" exNodeJson exNode rfl rfl rfl rfl,
    (c5_extract_input exLockfile "missing").2.1
      (.obj [("inputs", .obj [("nixpkgs", .str "nixpkgs-node")])]) rfl rfl⟩

theorem jlookup_append_right (key k : String) (v : Json)
    (fields : List (String × Json)) (h : k ≠ key) :
    jlookup key (fields ++ [(k, v)]) = jlookup key fields := by
  induction fields with
  | nil => simp [jlookup, h]
  | cons p rest ih =>
    obtain ⟨k', v'⟩ := p
    simp only [List.cons_append, jlookup]
    by_cases hk : k' = key
    · rw [if_pos hk, if_pos hk]
    · rw [if_neg hk, if_neg hk]
      exact ih

theorem reqField_append {α : Type} (fields : List (String × Json))
    (k : String) (v : Json) (key : String) (dec : Json → DResult α)
    (h : k ≠ key) :
    reqField (fields ++ [(k, v)]) key dec = reqField fields key dec := by
  unfold reqField
  rw [jlookup_append_right key k v fields h]

theorem optField_append {α : Type} (fields : List (String × Json))
    (k : String) (v : Json) (key : String) (dec : Json → DResult α)
    (h : k ≠ key) :
    optField (fields ++ [(k, v)]) key dec = optField fields key dec := by
  unfold optField
  rw [jlookup_append_right key k v fields h]

/-- Appending a field whose key is not one of the recognized
original-reference keys does not change the typed decode. -/
theorem decodeOriginal_append (fields : List (String × Json)) (k : String)
    (v : Json) (hty : k ≠ "type") (hid : k ≠ "id") (hrev : k ≠ "rev")
    (href : k ≠ "ref") :
    decodeOriginal (.obj (fields ++ [(k, v)])) = decodeOriginal (.obj fields) := by
  simp only [decodeOriginal]
  rw [jlookup_append_right "type" k v fields hty]
  cases htag : jlookup "type" fields with
  | none => rfl
  | some j =>
    cases j with
    | str t =>
      unfold decodeOriginalTagged decodeOriginalGitService
      rw [reqField_append fields k v "id" decodeString hid,
        optField_append fields k v "rev" decodeString hrev,
        optField_append fields k v "ref" decodeString href]
    | null => rfl
    | bool b => rfl
    | num n => rfl
    | arr l => rfl
    | obj o => rfl

/-- C9: decoding an original-reference object that carries unrecognized
keys succeeds whenever the object without them decodes, the unrecognized
keys land in the flattened `extra` capture, and re-serializing emits them
alongside the known fields, so a decode-then-encode round trip never drops
them. -/
theorem c9_unknown_field_roundtrip (fields : List (String × Json))
    (k : String) (v : Json) (inner : Original)
    (hk : ¬ (k = "type" ∨ k = "id" ∨ k = "rev" ∨ k = "ref"))
    (hdec : decodeOriginal (.obj fields) = .ok inner) :
    decodeOriginalExtra (.obj (fields ++ [(k, v)])) =
      .ok ⟨inner, fields ++ [(k, v)]⟩ ∧
    (k, v) ∈ OriginalExtra.serialize ⟨inner, fields ++ [(k, v)]⟩ := by
  push_neg at hk
  obtain ⟨hty, hid, hrev, href⟩ := hk
  constructor
  · simp only [decodeOriginalExtra,
      decodeOriginal_append fields k v hty hid hrev href, hdec, DResult.map]
  · simp [OriginalExtra.serialize]

/-- Witness for C9: a `git` original reference with an extra `submodules`
key decodes, keeps the key in `extra`, and re-serializes it. -/
theorem c9_witness :
    decodeOriginalExtra (.obj ([("type", .str "git"), ("ref", .str "main")] ++
      [("submodules", .bool true)])) =
      .ok ⟨.git (some "main"), [("type", .str "git"), ("ref", .str "main"),
        ("submodules", .bool true)]⟩ ∧
    ("submodules", Json.bool true) ∈ OriginalExtra.serialize
      ⟨.git (some "main"), [("type", .str "git"), ("ref", .str "main"),
        ("submodules", .bool true)]⟩ :=
  c9_unknown_field_roundtrip [("type", .str "git"), ("ref", .str "main")]
    "submodules" (.bool true) (.git (some "main")) (by simp) rfl

theorem foldl_pushUnique_of_mem {α : Type} [DecidableEq α]
    (l : List α) (acc : List α) (h : ∀ a ∈ l, a ∈ acc) :
    l.foldl pushUnique acc = acc := by
  induction l generalizing acc with
  | nil => rfl
  | cons a l ih =>
    simp only [List.foldl_cons]
    rw [show pushUnique acc a = acc by simp [pushUnique, h a (by simp)]]
    exact ih acc (fun b hb => h b (by simp [hb]))

theorem foldl_pushUnique_nodup {α : Type} [DecidableEq α]
    (l : List α) (acc : List α) (h : (acc ++ l).Nodup) :
    l.foldl pushUnique acc = acc ++ l := by
  induction l generalizing acc with
  | nil => simp
  | cons a l ih =>
    have hdisj := List.disjoint_of_nodup_append h
    have hmem : a ∉ acc := fun hmem => hdisj hmem (by simp)
    simp only [List.foldl_cons]
    rw [show pushUnique acc a = acc ++ [a] by simp [pushUnique, hmem]]
    rw [ih (acc ++ [a]) (by simpa using h)]
    simp

/-- C3 counterexample: `reduce_diff_context` deduplicates by value, not by
identity, so with a context covering the whole diff the two value-equal
unchanged lines collapse into one and the full diff is not returned. -/
theorem c3_counterexample :
    reduce_diff_context
      [DiffLine.both "x" "x", DiffLine.left "y", DiffLine.both "x" "x"] 3 =
      [DiffLine.both "x" "x", DiffLine.left "y"] ∧
    reduce_diff_context
      [DiffLine.both "x" "x", DiffLine.left "y", DiffLine.both "x" "x"] 3 ≠
      [DiffLine.both "x" "x", DiffLine.left "y", DiffLine.both "x" "x"] := by
  constructor
  · rfl
  · decide

/-- C3 (amended): `reduce_diff_context` suppresses duplicates by value, so
it returns the full diff unchanged for a context at least the diff's length
only when the diff contains a changed line and no two value-equal elements;
value-equal repeats are collapsed into the first occurrence. -/
theorem c3_full_context_nodup (input : List (DiffLine String)) (context : Nat)
    (hlen : input.length ≤ context)
    (hchange : ∃ d ∈ input, d.isChange = true)
    (hnodup : input.Nodup) :
    reduce_diff_context input context = input := by
  obtain ⟨d, hd, hdc⟩ := hchange
  obtain ⟨i, hi, hget⟩ := List.mem_iff_getElem.mp hd
  have henum : (i, d) ∈ input.enum :=
    List.mk_mem_enum_iff_getElem?.mpr (by simp [List.getElem?_eq_getElem, hi, hget])
  have hfilter : (i, d) ∈ input.enum.filter (fun p => p.2.isChange) :=
    List.mem_filter.mpr ⟨henum, hdc⟩
  have hidi : i ∈ (input.enum.filter (fun p => p.2.isChange)).map (fun p => p.1) :=
    List.mem_map.mpr ⟨(i, d), hfilter, rfl⟩
  have hvalid : ∀ idx ∈ (input.enum.filter (fun p => p.2.isChange)).map
      (fun p => p.1), idx < input.length := by
    intro idx hidx
    obtain ⟨p, hp, rfl⟩ := List.mem_map.mp hidx
    exact List.fst_lt_of_mem_enum (List.mem_filter.mp hp).1
  have hstep : ∀ (result : List (DiffLine String)) (idx : Nat),
      idx < input.length →
      ((input.take (min (idx + context + 1) input.length)).drop
        (idx - context)).foldl pushUnique result =
        input.foldl pushUnique result := by
    intro result idx hidx
    have h1 : idx - context = 0 := by omega
    have h2 : min (idx + context + 1) input.length = input.length := by omega
    rw [h1, h2, List.take_length, List.drop_zero]
  have hrest : ∀ rs : List Nat, (∀ idx ∈ rs, idx < input.length) →
      rs.foldl (fun result diffIdx =>
        ((input.take (min (diffIdx + context + 1) input.length)).drop
          (diffIdx - context)).foldl pushUnique result) input = input := by
    intro rs
    induction rs with
    | nil => intro _; rfl
    | cons j rest ih =>
      intro hval
      simp only [List.foldl_cons]
      rw [hstep input j (hval j (by simp))]
      rw [foldl_pushUnique_of_mem input input (fun a ha => ha)]
      exact ih (fun idx hidx => hval idx (by simp [hidx]))
  unfold reduce_diff_context
  rcases hdi : (input.enum.filter (fun p => p.2.isChange)).map (fun p => p.1)
    with _ | ⟨j, rest⟩
  · rw [hdi] at hidi
    cases hidi
  · rw [hdi] at hvalid ⊢
    simp only [List.foldl_cons]
    rw [hstep [] j (hvalid j (by simp))]
    rw [foldl_pushUnique_nodup input [] (by simpa using hnodup)]
    simp only [List.nil_append]
    exact hrest rest (fun idx hidx => hvalid idx (by simp [hidx]))

/-- Witness for C3's amended theorem: a duplicate-free two-line diff with a
changed line is returned whole when the context covers it. -/
theorem c3_witness :
    reduce_diff_context [DiffLine.both "a" "b", DiffLine.left "c"] 2 =
      [DiffLine.both "a" "b", DiffLine.left "c"] :=
  c3_full_context_nodup [DiffLine.both "a" "b", DiffLine.left "c"] 2
    (by norm_num) ⟨DiffLine.left "c", by simp, rfl⟩ (by decide)

/-- The flakes of a discovery map owning directory `dir`. -/
def flakesAt (flakes : List Flake) (dir : RPath) : List Flake :=
  flakes.filter (fun f => f.directory == dir)

/-- The accumulated `Flake` record for directory `dir` built from the
classified markers `ms`: every marker path appended in order, flags OR'd
(`c.2.1` is the direnv flag, `c.2.2` the build-result flag). -/
def expectedFlake (flake_id : String) (dir : RPath)
    (ms : List (RPath × Bool × Bool)) : Flake :=
  ⟨flake_id, dir, ms.map (fun c => c.1), ms.any (fun c => c.2.2),
    ms.any (fun c => c.2.1), dir ++ ["flake.lock"]⟩

/-- Invariant of the discovery fold: after processing `processed`, the map
holds, for each directory, either nothing (no existing classified marker,
or no lockfile) or exactly the accumulated record. -/
def goodState (pe : RPath → Bool) (flake_id : String)
    (processed : List RPath) (flakes : List Flake) : Prop :=
  ∀ dir : RPath,
    flakesAt flakes dir =
      if classifiedMarkers pe processed dir ≠ [] ∧
          pe (dir ++ ["flake.lock"]) = true
      then [expectedFlake flake_id dir (classifiedMarkers pe processed dir)]
      else []

theorem classifiedMarkers_snoc (pe : RPath → Bool) (l : List RPath)
    (g : RPath) (dir : RPath) :
    classifiedMarkers pe (l ++ [g]) dir =
      classifiedMarkers pe l dir ++
        (if pe g then ((classify g).bind (fun c =>
          if c.1 = dir then some (g, c.2.1, c.2.2) else none)).toList
         else []) := by
  unfold classifiedMarkers
  rw [List.filterMap_append]
  congr 1
  cases hpe : pe g
  · simp [List.filterMap, hpe]
  · cases hcl : (classify g).bind (fun c =>
      if c.1 = dir then some (g, c.2.1, c.2.2) else none) <;>
      simp [List.filterMap, hpe, hcl]

theorem flakesAt_updateFlake (flakes : List Flake) (d : RPath) (g : RPath)
    (dv br : Bool) (dir : RPath) :
    flakesAt (updateFlake flakes d g dv br) dir =
      (flakesAt flakes dir).map (fun f =>
        if f.directory = d then
          { f with
            gcroots := f.gcroots ++ [g]
            has_direnv_gc_roots := f.has_direnv_gc_roots || dv
            has_build_result := f.has_build_result || br }
        else f) := by
  unfold flakesAt updateFlake
  rw [List.filter_map]
  congr 1
  apply List.filter_congr
  intro f _
  by_cases hf : f.directory = d
  · simp only [Function.comp_apply, hf, if_pos]
  · simp only [Function.comp_apply, hf, if_neg, ite_false]

theorem any_directory_iff (flakes : List Flake) (dir : RPath) :
    flakes.any (fun f => f.directory == dir) = true ↔
      flakesAt flakes dir ≠ [] := by
  simp only [flakesAt, ne_eq, List.filter_eq_nil_iff, List.any_eq_true]
  push_neg
  simp

theorem filter_gcroot_preserves (pe : RPath → Bool) (fid : String)
    (processed : List RPath) (flakes : List Flake) (g : RPath)
    (hgood : goodState pe fid processed flakes) :
    goodState pe fid (processed ++ [g]) (filter_gcroot pe fid flakes g) := by
  intro dir
  unfold filter_gcroot
  rw [classifiedMarkers_snoc]
  cases hpe : pe g with
  | false =>
    simpa using hgood dir
  | true =>
    cases hcl : classify g with
    | none =>
      simpa using hgood dir
    | some c =>
      obtain ⟨d, dv, br⟩ := c
      simp only [Bool.not_true, Bool.false_eq_true, if_false, if_true,
        Option.some_bind]
      by_cases hdir : d = dir
      · subst hdir
        rw [if_pos rfl, Option.toList_some]
        by_cases hlock : pe (d ++ ["flake.lock"]) = true
        · by_cases hcm : classifiedMarkers pe processed d = []
          · have hempty : flakesAt flakes d = [] := by
              rw [hgood d, if_neg (fun h => h.1 hcm)]
            have hany : flakes.any (fun f => f.directory == d) = false :=
              Bool.eq_false_iff.mpr
                (fun hc => (any_directory_iff flakes d).mp hc hempty)
            rw [hany, hlock]
            simp only [Bool.false_eq_true, if_false, Bool.not_true]
            rw [if_pos (by simp [hcm]), hcm, List.nil_append]
            unfold flakesAt at hempty ⊢
            rw [List.filter_append, hempty, List.nil_append]
            simp [expectedFlake]
          · have hfull : flakesAt flakes d =
                [expectedFlake fid d (classifiedMarkers pe processed d)] := by
              rw [hgood d, if_pos ⟨hcm, hlock⟩]
            have hany : flakes.any (fun f => f.directory == d) = true :=
              (any_directory_iff flakes d).mpr (by rw [hfull]; simp)
            rw [hany]
            simp only [if_true]
            rw [if_pos (by simp [hcm, hlock])]
            rw [flakesAt_updateFlake, hfull]
            simp [expectedFlake, List.any_append]
        · have hlock' : pe (d ++ ["flake.lock"]) = false :=
            Bool.eq_false_iff.mpr hlock
          have hempty : flakesAt flakes d = [] := by
            rw [hgood d, if_neg (fun h => hlock h.2)]
          have hany : flakes.any (fun f => f.directory == d) = false :=
            Bool.eq_false_iff.mpr
              (fun hc => (any_directory_iff flakes d).mp hc hempty)
          rw [hany, hlock']
          simp only [Bool.false_eq_true, if_false, Bool.not_false, if_true]
          rw [if_neg (fun h => h.2)]
          exact hempty
      · rw [if_neg hdir, Option.toList_none, List.append_nil]
        by_cases hany : flakes.any (fun f => f.directory == d) = true
        · rw [hany]
          simp only [if_true]
          rw [flakesAt_updateFlake, hgood dir]
          by_cases hcond : classifiedMarkers pe processed dir ≠ [] ∧
              pe (dir ++ ["flake.lock"]) = true
          · rw [if_pos hcond]
            simp [expectedFlake, Ne.symm hdir]
          · rw [if_neg hcond]
            rfl
        · have hany' : flakes.any (fun f => f.directory == d) = false :=
            Bool.eq_false_iff.mpr hany
          rw [hany']
          simp only [Bool.false_eq_true, if_false]
          cases hlock : pe (d ++ ["flake.lock"]) with
          | false =>
            simp only [Bool.not_false, if_true]
            exact hgood dir
          | true =>
            simp only [Bool.not_true, Bool.false_eq_true, if_false]
            unfold flakesAt
            rw [List.filter_append]
            have hnew : List.filter (fun f => f.directory == dir)
                [(⟨fid, d, [g], br, dv, d ++ ["flake.lock"]⟩ : Flake)] = [] := by
              simp [hdir]
            rw [hnew, List.append_nil]
            exact hgood dir

theorem goodState_nil (pe : RPath → Bool) (fid : String) :
    goodState pe fid [] [] := by
  intro dir
  simp [flakesAt, classifiedMarkers]

theorem discover_goodState (pe : RPath → Bool) (fid : String) :
    ∀ (entries : List RPath) (processed : List RPath) (flakes : List Flake),
      goodState pe fid processed flakes →
      goodState pe fid (processed ++ entries)
        (entries.foldl (filter_gcroot pe fid) flakes) := by
  intro entries
  induction entries with
  | nil => intro processed flakes h; simpa using h
  | cons g es ih =>
    intro processed flakes h
    have h2 := ih (processed ++ [g]) (filter_gcroot pe fid flakes g)
      (filter_gcroot_preserves pe fid processed flakes g h)
    simpa [List.append_assoc] using h2

/-- C6: all existing markers classifying to the same owning directory
accumulate into exactly one `Flake` record keyed by that directory, with the
direnv and build-result flags OR'd across the markers and every marker path
appended in order (provided the directory holds a lockfile, without which no
record is created at all). -/
theorem c6_workspace_grouping (pe : RPath → Bool) (fid : String)
    (entries : List RPath) (dir : RPath)
    (hms : classifiedMarkers pe entries dir ≠ [])
    (hlock : pe (dir ++ ["flake.lock"]) = true) :
    (discover pe fid entries).filter (fun f => f.directory == dir) =
      [expectedFlake fid dir (classifiedMarkers pe entries dir)] := by
  have h := discover_goodState pe fid entries [] [] (goodState_nil pe fid)
  have h2 := h dir
  rw [if_pos ⟨by simpa using hms, hlock⟩] at h2
  simpa [discover, flakesAt] using h2

/-- Filesystem fixture for the discovery witness: the two markers and the
lockfile of `/a/b` exist. -/
def exPE : RPath → Bool := fun p =>
  [["a", "b", ".direnv", "flake-profile"], ["a", "b", "result"],
    ["a", "b", "flake.lock"]].contains p

/-- Witness for C6: a direnv marker under `/a/b/.direnv/...` and a build
result at `/a/b/result` merge into a single record for `/a/b` with both
flags true. -/
theorem c6_witness :
    (discover exPE "nixpkgs"
      [["a", "b", ".direnv", "flake-profile"], ["a", "b", "result"]]).filter
        (fun f => f.directory == ["a", "b"]) =
      [⟨"nixpkgs", ["a", "b"],
        [["a", "b", ".direnv", "flake-profile"], ["a", "b", "result"]],
        true, true, ["a", "b", "flake.lock"]⟩] := by
  have h := c6_workspace_grouping exPE "nixpkgs"
    [["a", "b", ".direnv", "flake-profile"], ["a", "b", "result"]]
    ["a", "b"] (by decide) (by decide)
  rw [h]
  rfl

/-- Fixture flake for the dispatch theorems. -/
def exFlake7 : Flake :=
  ⟨"nixpkgs", ["a", "b"], [["a", "b", "result"]], true, false,
    ["a", "b", "flake.lock"]⟩

/-- C7 counterexample: dispatching `Commit` in a dry run with the
confirmation declined returns to the prompt without ever printing the
dry-run notice (it only runs the two read-only git queries), contradicting
the claim that every such command prints the notice. -/
theorem c7_counterexample :
    (execute_prompt_cmd false exFlake7 false .commit ⟨[true, true], ["n"], []⟩).2 =
      .cont ∧
    (execute_prompt_cmd false exFlake7 false .commit
      ⟨[true, true], ["n"], []⟩).1.trace =
      [.execCmd "git" ["log", "-0"],
        .execCmd "git" ["diff", "--quiet", "--cached", "--exit-code"]] ∧
    Effect.dryRunNote ∉ (execute_prompt_cmd false exFlake7 false .commit
      ⟨[true, true], ["n"], []⟩).1.trace := by
  refine ⟨rfl, rfl, ?_⟩
  decide

/-- C7 (amended): in a dry run, every command other than `NextFlake`,
`Edit`, `Shell` and `Help` returns to the prompt without writing a file,
removing a marker, or running any state-mutating external command;
`ApplyDiff`, `RunNixFlakeUpdate`, `DeleteGcroots` and `Lock` print the
dry-run notice immediately, while `RefreshDirenv` and `Commit` first ask a
confirmation (`Commit` also runs two read-only git queries) and print the
notice exactly when the operator confirms. -/
theorem c7_dry_run_dispatch (flake : Flake) (in_git_repo : Bool)
    (cmd : PromptCommand) (cmdResults : List Bool) (inputLines : List String)
    (h1 : cmd ≠ .nextFlake) (h2 : cmd ≠ .launchEditor)
    (h3 : cmd ≠ .launchShell) (h4 : cmd ≠ .printHelp) :
    (execute_prompt_cmd false flake in_git_repo cmd
      ⟨cmdResults, inputLines, []⟩).2 = .cont ∧
    (∀ e ∈ (execute_prompt_cmd false flake in_git_repo cmd
      ⟨cmdResults, inputLines, []⟩).1.trace, e.isMutation = false) ∧
    (checkDryRunHere cmd = true →
      (execute_prompt_cmd false flake in_git_repo cmd
        ⟨cmdResults, inputLines, []⟩).1.trace = [.dryRunNote]) ∧
    ((cmd = .refreshDirenv ∨ cmd = .commit) →
      (Effect.dryRunNote ∈ (execute_prompt_cmd false flake in_git_repo cmd
        ⟨cmdResults, inputLines, []⟩).1.trace ↔
        strTrim (inputLines.headD "") = "y")) := by
  cases cmd
  case nextFlake => exact absurd rfl h1
  case launchEditor => exact absurd rfl h2
  case launchShell => exact absurd rfl h3
  case printHelp => exact absurd rfl h4
  case applyDiff =>
    refine ⟨rfl, ?_, fun _ => rfl, fun h => absurd h (by decide)⟩
    intro e he
    simp only [execute_prompt_cmd, checkDryRunHere, Bool.not_false,
      Bool.and_self, if_true, addEffect, List.nil_append,
      List.mem_singleton] at he
    subst he
    rfl
  case runNixFlakeUpdate =>
    refine ⟨rfl, ?_, fun _ => rfl, fun h => absurd h (by decide)⟩
    intro e he
    simp only [execute_prompt_cmd, checkDryRunHere, Bool.not_false,
      Bool.and_self, if_true, addEffect, List.nil_append,
      List.mem_singleton] at he
    subst he
    rfl
  case deleteGcroots =>
    refine ⟨rfl, ?_, fun _ => rfl, fun h => absurd h (by decide)⟩
    intro e he
    simp only [execute_prompt_cmd, checkDryRunHere, Bool.not_false,
      Bool.and_self, if_true, addEffect, List.nil_append,
      List.mem_singleton] at he
    subst he
    rfl
  case lock =>
    refine ⟨rfl, ?_, fun _ => rfl, fun h => absurd h (by decide)⟩
    intro e he
    simp only [execute_prompt_cmd, checkDryRunHere, Bool.not_false,
      Bool.and_self, if_true, addEffect, List.nil_append,
      List.mem_singleton] at he
    subst he
    rfl
  case refreshDirenv =>
    by_cases hy : strTrim (inputLines.headD "") = "y" <;>
      rw [List.headD_eq_head?_getD] at hy <;>
      refine ⟨rfl, ?_, fun h => absurd h (by decide), fun _ => ?_⟩ <;>
      simp [execute_prompt_cmd, refresh_direnv, readLine, addEffect,
        checkDryRunHere, hy, Effect.isMutation]
  case commit =>
    by_cases hy : strTrim (inputLines.headD "") = "y" <;>
      rw [List.headD_eq_head?_getD] at hy <;>
      refine ⟨rfl, ?_, fun h => absurd h (by decide), fun _ => ?_⟩ <;>
      simp only [execute_prompt_cmd, git_commit_changes, runCmd, readLine,
        addEffect, checkDryRunHere] <;>
      simp [hy, Effect.isMutation, isReadOnlyGitQuery]

/-- Witness for C7's amended theorem: `ApplyDiff` under a dry run produces
just the notice and returns to the prompt. -/
theorem c7_witness :
    (execute_prompt_cmd false exFlake7 false .applyDiff ⟨[], [], []⟩).2 =
      .cont ∧
    (execute_prompt_cmd false exFlake7 false .applyDiff ⟨[], [], []⟩).1.trace =
      [.dryRunNote] :=
  ⟨(c7_dry_run_dispatch exFlake7 false .applyDiff [] [] (by decide)
      (by decide) (by decide) (by decide)).1,
    (c7_dry_run_dispatch exFlake7 false .applyDiff [] [] (by decide)
      (by decide) (by decide) (by decide)).2.2.1 rfl⟩

end Nixpkgsupd
